import Mathlib

/-!
Verification of the datastore record codec (`src/datastore/entry.go`).

The Go code is shallowly embedded: Go byte slices and Go strings are both
`List Nat` (a Go string is an arbitrary byte sequence), machine integers are
`Nat`/`Int` with explicit modular reduction where the code casts, and every
code path that can end in a Go runtime fault (an uncaught `panic`: a nil
interface dispatch, a slice index out of range, or an explicit `panic(err)`
call) is modelled as `Option.none` / a `runtimeFault` result, since the Go
functions concerned declare no error results at all.
-/

namespace Datastore

/-! ## Little-endian byte helpers (`encoding/binary` as used by the code) -/

/-- The four little-endian bytes written by `binary.LittleEndian.PutUint32`
for the value `n` after Go's `uint32(n)` truncation (byte `i` of `n % 2^32`
equals `n / 256^i % 256` for `i < 4`). -/
def le32 (n : Nat) : List Nat :=
  [n % 256, n / 256 % 256, n / 65536 % 256, n / 16777216 % 256]

/-- The eight little-endian bytes written by `binary.LittleEndian.PutUint64`. -/
def le64 (n : Nat) : List Nat :=
  [n % 256, n / 256 % 256, n / 65536 % 256, n / 16777216 % 256,
   n / 4294967296 % 256, n / 1099511627776 % 256,
   n / 281474976710656 % 256, n / 72057594037927936 % 256]

/-- Value of `binary.LittleEndian.Uint32` on (the first four bytes of) `l`.
Callers of the embedding guard the length exactly where the Go code would
otherwise fault on a short slice. -/
def peekLE32 (l : List Nat) : Nat :=
  l.getD 0 0 + 256 * l.getD 1 0 + 65536 * l.getD 2 0 + 16777216 * l.getD 3 0

/-- Value of `binary.LittleEndian.Uint64` on (the first eight bytes of) `l`. -/
def peekLE64 (l : List Nat) : Nat :=
  l.getD 0 0 + 256 * l.getD 1 0 + 65536 * l.getD 2 0 + 16777216 * l.getD 3 0
    + 4294967296 * l.getD 4 0 + 1099511627776 * l.getD 5 0
    + 281474976710656 * l.getD 6 0 + 72057594037927936 * l.getD 7 0

/-- Go `binary.LittleEndian.Uint32(input[off:])`. -/
def readLE32 (l : List Nat) (off : Nat) : Nat := peekLE32 (l.drop off)

/-- Go `binary.LittleEndian.Uint64(input[off:])` (the code always passes an
exactly-eight-byte subslice; reading the suffix is the same value). -/
def readLE64 (l : List Nat) (off : Nat) : Nat := peekLE64 (l.drop off)

/-! ## The `Entry` struct and the type-tag constants -/

/-- Go struct `Entry { key string; valueType byte; value string }`. -/
structure Entry where
  key : List Nat
  valueType : Nat
  value : List Nat
deriving Repr, DecidableEq

/-- Go constant `TYPE_SIZE = 1`. -/
def TYPE_SIZE : Nat := 1

/-- Go constant `STRING_TYPE byte = 0`. -/
def STRING_TYPE : Nat := 0

/-- Go constant `INT64_TYPE byte = 1`. -/
def INT64_TYPE : Nat := 1

/-! ## Decimal text of integers

The value of an `Entry` is held in textual form.  `int64Operator` converts
it with `strconv.ParseInt(e.value, 10, 64)` on encode and renders it with
`fmt.Sprintf("%d", int64(value))` on decode.  Both are embedded here over
ASCII byte lists. -/

/-- Fuel-driven digit writer: with fuel `> n` this produces the decimal
digits (ASCII, most significant first) of `n`, exactly the digit string
`fmt.Sprintf` prints for a nonnegative integer.  Fuel only makes the
recursion structural; `natToDigits_eq` below recovers the natural
recurrence. -/
def natToDigitsAux : Nat → Nat → List Nat
  | 0, _ => []
  | fuel + 1, n =>
    if n < 10 then [48 + n] else natToDigitsAux fuel (n / 10) ++ [48 + n % 10]

/-- ASCII decimal digits of a natural number (no sign, no leading zeros). -/
def natToDigits (n : Nat) : List Nat := natToDigitsAux (n + 1) n

/-- Go `fmt.Sprintf("%d", i)` for an `int64` value: minus sign (byte 45)
for negatives, then the decimal digits of the magnitude. -/
def int64ToString (i : Int) : List Nat :=
  if i < 0 then 45 :: natToDigits i.natAbs else natToDigits i.natAbs

/-- One step of decimal accumulation: accept ASCII bytes 48–57 only. -/
def digitStep (acc : Option Nat) (c : Nat) : Option Nat :=
  acc.bind fun a => if 48 ≤ c ∧ c ≤ 57 then some (a * 10 + (c - 48)) else none

/-- Decimal value of a digit string, `none` if any byte is not a digit. -/
def readDigits (l : List Nat) : Option Nat := l.foldl digitStep (some 0)

/-- The digits-and-range phase of `strconv.ParseInt(s, 10, 64)` after the
sign has been stripped: a non-empty run of decimal digits whose signed value
must fit in a signed 64-bit integer; every failure returns a non-nil error,
embedded as `none`. -/
def parseSigned (neg : Bool) (digits : List Nat) : Option Int :=
  if digits = [] then none
  else
    match readDigits digits with
    | none => none
    | some n =>
      let v : Int := if neg then -(n : Int) else (n : Int)
      if -9223372036854775808 ≤ v ∧ v ≤ 9223372036854775807 then some v else none

/-- Go `strconv.ParseInt(s, 10, 64)`: optional sign byte (`+` 43 / `-` 45),
then the digit run with the 64-bit range check. -/
def parseIntGo (s : List Nat) : Option Int :=
  match s with
  | [] => none
  | c :: rest =>
    if c = 45 then parseSigned true rest
    else if c = 43 then parseSigned false rest
    else parseSigned false (c :: rest)

/-- Go cast `uint64(i)` of an `int64`: the two's-complement image,
`i mod 2^64` as a natural number. -/
def toUInt64 (i : Int) : Nat := (i % 18446744073709551616).toNat

/-- Go cast `int64(u)` of a `uint64`: reinterpret the two's-complement
bits, i.e. subtract `2^64` from values at or above `2^63`. -/
def toInt64 (u : Nat) : Int :=
  if u < 9223372036854775808 then (u : Int) else (u : Int) - 18446744073709551616

/-! ## The encode path -/

/-- Go `copy(dst[off:], src)`: overwrite `min (len src) (len dst - off)`
bytes of `dst` starting at `off`; never lengthens `dst`. -/
def copyInto (dst : List Nat) (off : Nat) (src : List Nat) : List Nat :=
  dst.take off ++ src.take (min src.length (dst.length - off))
    ++ dst.drop (off + min src.length (dst.length - off))

/-- Go `binary.LittleEndian.PutUint32(dst[off:], uint32 x)` (all call sites
in the code are in range, so the write is a plain four-byte copy). -/
def putLE32 (dst : List Nat) (off : Nat) (x : Nat) : List Nat :=
  copyInto dst off (le32 x)

/-- Go `binary.LittleEndian.PutUint64(dst[off:], uint64 x)`. -/
def putLE64 (dst : List Nat) (off : Nat) (x : Nat) : List Nat :=
  copyInto dst off (le64 x)

/-- Go `encodeKey(e, vl)`: allocate the zero buffer of the generic total
size `kl + TYPE_SIZE + vl + 12`, write the total size, the key length and
the key bytes, and return the buffer with the next write offset `kl + 8`. -/
def encodeKey (e : Entry) (vl : Nat) : List Nat × Nat :=
  let kl := e.key.length
  let size := kl + TYPE_SIZE + vl + 12
  let res := List.replicate size 0
  let res := putLE32 res 0 size
  let res := putLE32 res 4 kl
  let res := copyInto res 8 e.key
  (res, kl + 8)

/-- Go `stringOperator.Encode`: header via `encodeKey` with `vl` the value
byte length, then the type tag byte, the four-byte value length and the raw
value bytes. -/
def stringOperatorEncode (e : Entry) : List Nat :=
  let p := encodeKey e e.value.length
  let vl := e.value.length
  let res := copyInto p.1 p.2 [STRING_TYPE]
  let res := putLE32 res (p.2 + TYPE_SIZE) vl
  let res := copyInto res (p.2 + TYPE_SIZE + 4) e.value
  res

/-- Go `int64Operator.Encode`: header via `encodeKey` with `vl = 8`, then
`strconv.ParseInt` of the textual value — whose failure the code turns into
`panic(err)`, embedded as `none` — then the tag byte and the eight
two's-complement little-endian value bytes.  The four bytes reserved by the
generic size formula after them are never written and stay zero. -/
def int64OperatorEncode (e : Entry) : Option (List Nat) :=
  let p := encodeKey e 8
  match parseIntGo e.value with
  | none => none
  | some i =>
    let res := copyInto p.1 p.2 [INT64_TYPE]
    let res := putLE64 res (p.2 + TYPE_SIZE) (toUInt64 i)
    some res

/-! ## The decode path (bulk)

`Entry.Decode` and the operator `Decode` methods return nothing in Go; the
only failure mode is a runtime fault (slice index out of range, or a nil
interface dispatch for an unregistered tag).  The embedding returns
`Option Entry`, with `none` standing for exactly those faults: each guard
below is the bounds check Go performs implicitly at the corresponding
slice expression. -/

/-- Go `stringOperator.Decode(input, e)`: read the four-byte value length
at offset `kl + TYPE_SIZE + 8` (faults unless `kl + 13 ≤ len input`), then
copy that many value bytes from offset `kl + TYPE_SIZE + 12` (faults unless
they fit), writing the textual value into the entry. -/
def stringOperatorDecode (input : List Nat) (e : Entry) : Option Entry :=
  let kl := e.key.length
  if kl + TYPE_SIZE + 12 ≤ input.length then
    let vl := readLE32 input (kl + TYPE_SIZE + 8)
    if kl + TYPE_SIZE + 12 + vl ≤ input.length then
      some { e with value := (input.drop (kl + TYPE_SIZE + 12)).take vl }
    else none
  else none

/-- Go `int64Operator.Decode(input, e)`: read the eight value bytes
`input[kl+TYPE_SIZE+8 : kl+TYPE_SIZE+16]` (faults unless they fit) and
store `fmt.Sprintf` of the reinterpreted signed value. -/
def int64OperatorDecode (input : List Nat) (e : Entry) : Option Entry :=
  let kl := e.key.length
  if kl + TYPE_SIZE + 16 ≤ input.length then
    some { e with value := int64ToString (toInt64 (readLE64 input (kl + TYPE_SIZE + 8))) }
  else none

/-! ## The streaming path -/

/-- Result of a streaming step, or of the whole streaming read. -/
inductive StreamOutcome where
  /-- A Go error value was returned to the caller (EOF, short read, …). -/
  | ioErr : StreamOutcome
  /-- A Go runtime fault: dispatch through a nil operator interface. -/
  | runtimeFault : StreamOutcome
deriving Repr, DecidableEq

/-- A `bufio.Reader` over a fully buffered byte source: the whole underlying
stream `data` with the cursor at `pos`.  (The codec's contract in the spec
is exactly a buffered reader it may `Peek`, `Discard` and `Read`.) -/
structure Reader where
  data : List Nat
  pos : Nat
deriving Repr, DecidableEq

/-- `bufio.Reader.Peek(n)`: the next `n` bytes without advancing; a non-nil
error when fewer than `n` bytes remain. -/
def Reader.peek (r : Reader) (n : Nat) : Option (List Nat) :=
  if r.pos + n ≤ r.data.length then some ((r.data.drop r.pos).take n) else none

/-- `bufio.Reader.Discard(n)`: advance the cursor by `n`; a non-nil error
when fewer than `n` bytes remain. -/
def Reader.discard (r : Reader) (n : Nat) : Option Reader :=
  if r.pos + n ≤ r.data.length then some ⟨r.data, r.pos + n⟩ else none

/-- `bufio.Reader.Read(p)` with `len p = n` over a fully buffered source:
zero bytes and no error when `n = 0`, EOF when nothing remains, otherwise
up to `n` of the remaining bytes. -/
def Reader.readBytes (r : Reader) (n : Nat) : Except StreamOutcome (List Nat × Reader) :=
  if n = 0 then .ok ([], r)
  else if r.data.length ≤ r.pos then .error .ioErr
  else
    let m := min n (r.data.length - r.pos)
    .ok ((r.data.drop r.pos).take m, ⟨r.data, r.pos + m⟩)

/-- Go `stringOperator.Read(in)`: peek the four-byte value size, discard it,
read exactly that many value bytes (error on a short read), and return the
value bytes; the cursor ends `4 + valSize` bytes further on. -/
def stringOperatorRead (r : Reader) : Except StreamOutcome (List Nat × Reader) :=
  match r.peek 4 with
  | none => .error .ioErr
  | some header =>
    let valSize := peekLE32 header
    match r.discard 4 with
    | none => .error .ioErr
    | some r1 =>
      match r1.readBytes valSize with
      | .error f => .error f
      | .ok (data, r2) =>
        if data.length ≠ valSize then .error .ioErr else .ok (data, r2)

/-- Go `int64Operator.Read(in)`: peek eight bytes and return the decimal
text of their two's-complement value.  The code never discards, so the
returned reader is the input reader with its cursor unmoved. -/
def int64OperatorRead (r : Reader) : Except StreamOutcome (List Nat × Reader) :=
  match r.peek 8 with
  | none => .error .ioErr
  | some data => .ok (int64ToString (toInt64 (peekLE64 data)), r)

/-! ## The type registry and dispatch -/

/-- The Go interface `typeOperator` with its three methods. -/
structure TypeOperator where
  encode : Entry → Option (List Nat)
  decode : List Nat → Entry → Option Entry
  read : Reader → Except StreamOutcome (List Nat × Reader)

/-- The `stringOperator{}` instance (its `Encode` never faults). -/
def stringOperator : TypeOperator :=
  ⟨fun e => some (stringOperatorEncode e), stringOperatorDecode, stringOperatorRead⟩

/-- The `int64Operator{}` instance. -/
def int64Operator : TypeOperator :=
  ⟨int64OperatorEncode, int64OperatorDecode, int64OperatorRead⟩

/-- The byte list of the Go literal `"string"`. -/
def stringName : List Nat := [115, 116, 114, 105, 110, 103]

/-- The byte list of the Go literal `"int64"`. -/
def int64Name : List Nat := [105, 110, 116, 54, 52]

/-- Go map `typeToByte`; a Go map with these two entries, as a lookup list. -/
def typeToByte : List (List Nat × Nat) :=
  [(stringName, STRING_TYPE), (int64Name, INT64_TYPE)]

/-- Go `ToByte`: map indexing, whose zero value for a missing key is the
byte 0. -/
def ToByte (valueType : List Nat) : Nat :=
  (List.lookup valueType typeToByte).getD 0

/-- Go `ToType`: scan `typeToByte` for the first name mapped to `value`,
empty string otherwise.  (Go map iteration order is unspecified, but the
two tag values are distinct, so at most one pair matches and the scan order
cannot change the result.) -/
def ToType (value : Nat) : List Nat :=
  match typeToByte.find? (fun p => p.2 == value) with
  | some p => p.1
  | none => []

/-- Go map `operators`, as a lookup list; a missing tag yields Go's zero
value for the interface type — a nil interface whose method dispatch
faults. -/
def operators : List (Nat × TypeOperator) :=
  [(STRING_TYPE, stringOperator), (INT64_TYPE, int64Operator)]

/-! ## The top-level codec -/

/-- Go `(*Entry).Encode`: dispatch on the record's own `valueType`; an
unregistered tag dispatches through a nil interface, a runtime fault
(`none`), as is an operator-level fault (`ParseInt` failure). -/
def entryEncode (e : Entry) : Option (List Nat) :=
  match List.lookup e.valueType operators with
  | some op => op.encode e
  | none => none

/-- Go `(*Entry).Decode(input)`: read the key length at offset 4 (faults
unless 8 bytes exist), copy the key from `input[8:kl+8]`, read the type tag
at `input[kl+8]`, and dispatch the operator decode for that tag (nil
dispatch faults).  `kl` is a `uint32`, so Go computes the index `kl + 8` in
uint32 arithmetic: for `kl ≥ 2^32 - 8` it wraps below 8 and the slice
expression `input[8:kl+8]` always faults (`ku` below is that wrapped
index; for a genuine byte buffer `kl < 2^32`, so `ku = (kl + 8) % 2^32`
is exactly the uint32 value).  The slice faults unless `8 ≤ ku ≤ len`,
the tag read unless `ku < len`; on the surviving paths no wrap occurred,
so the copied key is `kl` bytes from offset 8.  The entry's `valueType`
field is never written. -/
def entryDecode (e : Entry) (input : List Nat) : Option Entry :=
  if 8 ≤ input.length then
    let kl := readLE32 input 4
    let ku := (kl + 8) % 4294967296
    if 8 ≤ ku ∧ ku ≤ input.length then
      let e1 : Entry := { e with key := (input.drop 8).take kl }
      if ku < input.length then
        match List.lookup (input.getD ku 0) operators with
        | some op => op.decode input e1
        | none => none
      else none
    else none
  else none

/-- Go struct `output { valueType string; value string }`. -/
structure Output where
  valueType : List Nat
  value : List Nat
deriving Repr, DecidableEq

/-- Go `readValue(in)`: peek the eight header bytes, take the key size from
their second word, discard header plus key, peek and discard the tag byte,
dispatch the operator for the tag (nil dispatch is a runtime fault) and
stream-read the value. -/
def readValue (r : Reader) : Except StreamOutcome (Output × Reader) :=
  match r.peek 8 with
  | none => .error .ioErr
  | some header =>
    let keySize := peekLE32 (header.drop 4)
    match r.discard (keySize + 8) with
    | none => .error .ioErr
    | some r1 =>
      match r1.peek 1 with
      | none => .error .ioErr
      | some valueType =>
        match r1.discard 1 with
        | none => .error .ioErr
        | some r2 =>
          match List.lookup (valueType.getD 0 0) operators with
          | none => .error .runtimeFault
          | some op =>
            match op.read r2 with
            | .error f => .error f
            | .ok (data, r3) => .ok (⟨ToType (valueType.getD 0 0), data⟩, r3)

/-! ## Derived forms the claims quantify over -/

/-- Decode of an encode, into a fresh zero `Entry` — the composition the
round-trip properties are about. -/
def roundTrip (e : Entry) : Option Entry :=
  (entryEncode e).bind (entryDecode ⟨[], 0, []⟩)

/-- A back-to-back sequence of wire records produced by the STRING
operator's encoder. -/
def recordStream (es : List Entry) : List Nat :=
  (es.map stringOperatorEncode).flatten

/-- Iterate `readValue` `k` times, keeping only the reader (the cursor
trajectory is what the streaming-alignment property constrains). -/
def readN : Nat → Reader → Except StreamOutcome Reader
  | 0, r => .ok r
  | k + 1, r =>
    match readValue r with
    | .error f => .error f
    | .ok (_, r1) => readN k r1

/-! ## Little-endian round trips -/

@[simp] theorem le32_length (n : Nat) : (le32 n).length = 4 := rfl

@[simp] theorem le64_length (n : Nat) : (le64 n).length = 8 := rfl

theorem peekLE32_le32_append (n : Nat) (t : List Nat) (h : n < 4294967296) :
    peekLE32 (le32 n ++ t) = n := by
  simp only [peekLE32, le32, List.cons_append, List.nil_append,
    List.getD_cons_zero, List.getD_cons_succ]
  omega

theorem peekLE32_le32 (n : Nat) (h : n < 4294967296) : peekLE32 (le32 n) = n := by
  have := peekLE32_le32_append n [] h
  simpa using this

theorem peekLE64_le64_append (n : Nat) (t : List Nat) (h : n < 18446744073709551616) :
    peekLE64 (le64 n ++ t) = n := by
  simp only [peekLE64, le64, List.cons_append, List.nil_append,
    List.getD_cons_zero, List.getD_cons_succ]
  omega

/-! ## Decimal text round trips -/

theorem natToDigitsAux_irrel :
    ∀ f1 n f2 : Nat, n < f1 → n < f2 → natToDigitsAux f1 n = natToDigitsAux f2 n := by
  intro f1
  induction f1 with
  | zero => intro n f2 h1 _; omega
  | succ f ih =>
    intro n f2 h1 h2
    cases f2 with
    | zero => omega
    | succ f2' =>
      simp only [natToDigitsAux]
      by_cases h : n < 10
      · simp [h]
      · simp only [h, if_false]
        rw [ih (n / 10) f2' (by omega) (by omega)]

theorem natToDigits_eq (n : Nat) :
    natToDigits n = if n < 10 then [48 + n] else natToDigits (n / 10) ++ [48 + n % 10] := by
  unfold natToDigits
  simp only [natToDigitsAux]
  by_cases h : n < 10
  · simp [h]
  · simp only [h, if_false]
    rw [natToDigitsAux_irrel n (n / 10) (n / 10 + 1) (by omega) (by omega)]
    simp only [natToDigitsAux]

theorem digitStep_some (a c : Nat) :
    digitStep (some a) c = if 48 ≤ c ∧ c ≤ 57 then some (a * 10 + (c - 48)) else none := rfl

theorem readDigits_natToDigits_aux (n : Nat) :
    ∀ a : Nat, ∃ k : Nat,
      List.foldl digitStep (some a) (natToDigits n) = some (a * 10 ^ k + n) := by
  induction n using Nat.strong_induction_on with
  | _ n ih =>
    intro a
    rw [natToDigits_eq]
    by_cases h : n < 10
    · refine ⟨1, ?_⟩
      rw [if_pos h]
      simp only [List.foldl_cons, List.foldl_nil]
      rw [digitStep_some, if_pos ⟨by omega, by omega⟩]
      congr 1
      rw [pow_one]
      omega
    · obtain ⟨k, hk⟩ := ih (n / 10) (by omega) a
      refine ⟨k + 1, ?_⟩
      rw [if_neg h, List.foldl_append, hk]
      simp only [List.foldl_cons, List.foldl_nil]
      rw [digitStep_some, if_pos ⟨by omega, by omega⟩]
      congr 1
      rw [pow_succ]
      have hmul : a * (10 ^ k * 10) = a * 10 ^ k * 10 := by ring
      rw [hmul]
      generalize a * 10 ^ k = u
      omega

theorem readDigits_natToDigits (n : Nat) : readDigits (natToDigits n) = some n := by
  obtain ⟨k, hk⟩ := readDigits_natToDigits_aux n 0
  unfold readDigits
  rw [hk]
  simp

theorem natToDigits_head (n : Nat) : ∃ d t, natToDigits n = (48 + d) :: t ∧ d < 10 := by
  induction n using Nat.strong_induction_on with
  | _ n ih =>
    rw [natToDigits_eq]
    by_cases h : n < 10
    · exact ⟨n, [], by rw [if_pos h], h⟩
    · obtain ⟨d, t, hdt, hd⟩ := ih (n / 10) (by omega)
      exact ⟨d, t ++ [48 + n % 10], by rw [if_neg h, hdt]; rfl, hd⟩

theorem parseSigned_natToDigits_true (m : Nat) :
    parseSigned true (natToDigits m)
      = if -9223372036854775808 ≤ -(m : Int) ∧ -(m : Int) ≤ 9223372036854775807
        then some (-(m : Int)) else none := by
  unfold parseSigned
  obtain ⟨d, t, hdt, _⟩ := natToDigits_head m
  rw [if_neg (by rw [hdt]; simp), readDigits_natToDigits]
  simp

theorem parseSigned_natToDigits_false (m : Nat) :
    parseSigned false (natToDigits m)
      = if -9223372036854775808 ≤ (m : Int) ∧ (m : Int) ≤ 9223372036854775807
        then some ((m : Int)) else none := by
  unfold parseSigned
  obtain ⟨d, t, hdt, _⟩ := natToDigits_head m
  rw [if_neg (by rw [hdt]; simp), readDigits_natToDigits]
  simp

theorem parseIntGo_int64ToString (v : Int)
    (h1 : -9223372036854775808 ≤ v) (h2 : v ≤ 9223372036854775807) :
    parseIntGo (int64ToString v) = some v := by
  unfold int64ToString
  by_cases hv : v < 0
  · rw [if_pos hv]
    have hstep : parseIntGo (45 :: natToDigits v.natAbs)
        = parseSigned true (natToDigits v.natAbs) := by
      simp [parseIntGo]
    rw [hstep, parseSigned_natToDigits_true]
    have habs : ((v.natAbs : Int)) = -v := Int.ofNat_natAbs_of_nonpos (by omega)
    rw [habs, neg_neg, if_pos ⟨h1, h2⟩]
  · rw [if_neg hv]
    obtain ⟨d, t, hdt, hd⟩ := natToDigits_head v.natAbs
    have hstep : parseIntGo (natToDigits v.natAbs)
        = parseSigned false (natToDigits v.natAbs) := by
      rw [hdt]
      simp [parseIntGo, show 48 + d ≠ 45 by omega, show 48 + d ≠ 43 by omega]
    rw [hstep, parseSigned_natToDigits_false]
    have habs : ((v.natAbs : Int)) = v := Int.natAbs_of_nonneg (by omega)
    rw [habs, if_pos ⟨h1, h2⟩]

/-! ## The two's-complement casts -/

theorem toUInt64_lt (i : Int) : toUInt64 i < 18446744073709551616 := by
  unfold toUInt64
  have h1 := Int.emod_nonneg i (show (18446744073709551616 : Int) ≠ 0 from by norm_num)
  have h2 := Int.emod_lt_of_pos i (show (0 : Int) < 18446744073709551616 from by norm_num)
  omega

theorem toInt64_toUInt64 (i : Int)
    (h1 : -9223372036854775808 ≤ i) (h2 : i ≤ 9223372036854775807) :
    toInt64 (toUInt64 i) = i := by
  unfold toInt64 toUInt64
  by_cases hv : 0 ≤ i
  · rw [Int.emod_eq_of_lt hv (by omega)]
    split <;> omega
  · have heq : i % 18446744073709551616 = i + 18446744073709551616 := by
      have h3 : (i + 18446744073709551616) % 18446744073709551616
          = i % 18446744073709551616 := by
        have h4 := Int.add_mul_emod_self_left i 18446744073709551616 1
        simp only [mul_one] at h4
        exact h4
      rw [← h3, Int.emod_eq_of_lt (by omega) (by omega)]
    rw [heq]
    split <;> omega

/-! ## Closed forms of the encoders

Each Go write lands exactly at the end of the bytes already written, so the
sequentially mutated buffer is an append chain followed by the untouched
zero tail. -/

theorem copyInto_tile (A src : List Nat) (k off : Nat)
    (hoff : off = A.length) (h : src.length ≤ k) :
    copyInto (A ++ List.replicate k 0) off src
      = (A ++ src) ++ List.replicate (k - src.length) 0 := by
  subst hoff
  unfold copyInto
  have hlen : (A ++ List.replicate k (0 : Nat)).length = A.length + k := by simp
  rw [hlen]
  have hmin : min src.length (A.length + k - A.length) = src.length := by omega
  rw [hmin, List.take_left, List.take_length, List.drop_append, List.drop_replicate,
    List.append_assoc]

theorem encodeKey_eq (e : Entry) (vl : Nat) :
    encodeKey e vl
      = (((le32 (e.key.length + 1 + vl + 12) ++ le32 e.key.length) ++ e.key)
           ++ List.replicate (vl + 5) 0,
         e.key.length + 8) := by
  dsimp only [encodeKey, putLE32, TYPE_SIZE]
  have s1 : copyInto (List.replicate (e.key.length + 1 + vl + 12) 0) 0
        (le32 (e.key.length + 1 + vl + 12))
      = le32 (e.key.length + 1 + vl + 12)
          ++ List.replicate (e.key.length + 1 + vl + 12 - 4) 0 := by
    have h := copyInto_tile [] (le32 (e.key.length + 1 + vl + 12))
      (e.key.length + 1 + vl + 12) 0 (by simp) (by simp only [le32_length]; omega)
    simpa using h
  rw [s1]
  rw [copyInto_tile _ _ _ _ (by simp) (by simp only [le32_length]; omega)]
  rw [copyInto_tile _ _ _ _ (by simp) (by simp only [le32_length]; omega)]
  rw [show e.key.length + 1 + vl + 12 - 4 - (le32 e.key.length).length - e.key.length
      = vl + 5 from by simp only [le32_length]; omega]

theorem stringOperatorEncode_eq (e : Entry) :
    stringOperatorEncode e
      = le32 (e.key.length + 1 + e.value.length + 12) ++ le32 e.key.length ++ e.key
          ++ [STRING_TYPE] ++ le32 e.value.length ++ e.value := by
  dsimp only [stringOperatorEncode, putLE32, TYPE_SIZE]
  rw [encodeKey_eq]
  dsimp only
  rw [copyInto_tile _ _ _ _ (by simp only [List.length_append, le32_length]; omega)
    (by simp only [List.length_cons, List.length_nil]; omega)]
  rw [copyInto_tile _ _ _ _
    (by simp only [List.length_append, le32_length, List.length_cons, List.length_nil]; omega)
    (by simp only [le32_length, List.length_cons, List.length_nil]; omega)]
  rw [copyInto_tile _ _ _ _
    (by simp only [List.length_append, le32_length, List.length_cons, List.length_nil]; omega)
    (by simp only [le32_length, List.length_cons, List.length_nil]; omega)]
  rw [show e.value.length + 5 - [STRING_TYPE].length - (le32 e.value.length).length
        - e.value.length = 0 from by
      simp only [le32_length, List.length_cons, List.length_nil]; omega]
  simp [List.append_assoc]

theorem int64OperatorEncode_eq (e : Entry) (i : Int) (h : parseIntGo e.value = some i) :
    int64OperatorEncode e
      = some (le32 (e.key.length + 1 + 8 + 12) ++ le32 e.key.length ++ e.key
          ++ [INT64_TYPE] ++ le64 (toUInt64 i) ++ [0, 0, 0, 0]) := by
  dsimp only [int64OperatorEncode, putLE64, TYPE_SIZE]
  rw [encodeKey_eq, h]
  dsimp only
  rw [copyInto_tile _ _ _ _ (by simp only [List.length_append, le32_length]; omega)
    (by simp only [List.length_cons, List.length_nil]; omega)]
  rw [copyInto_tile _ _ _ _
    (by simp only [List.length_append, le32_length, List.length_cons, List.length_nil]; omega)
    (by simp only [le64_length, List.length_cons, List.length_nil]; omega)]
  rw [show (8 : Nat) + 5 - [INT64_TYPE].length - (le64 (toUInt64 i)).length = 4 from by
      simp [le64_length]]
  simp [List.append_assoc, List.replicate]

theorem stringOperatorEncode_length (e : Entry) :
    (stringOperatorEncode e).length = e.key.length + e.value.length + 13 := by
  rw [stringOperatorEncode_eq]
  simp only [List.length_append, le32_length, List.length_cons, List.length_nil]
  omega

/-! ## Offset navigation inside a wire buffer -/

theorem dropSeg32 (m : Nat) (t : List Nat) (b : Nat) :
    (le32 m ++ t).drop (4 + b) = t.drop b := by
  rw [← List.drop_drop, List.drop_left' (le32_length m)]

theorem dropSeg64 (m : Nat) (t : List Nat) (b : Nat) :
    (le64 m ++ t).drop (8 + b) = t.drop b := by
  rw [← List.drop_drop, List.drop_left' (le64_length m)]

theorem dropSegKey (X t : List Nat) (b : Nat) :
    (X ++ t).drop (X.length + b) = t.drop b := by
  rw [← List.drop_drop, List.drop_left]

theorem dropSeg1 (c : Nat) (t : List Nat) (b : Nat) :
    (c :: t).drop (1 + b) = t.drop b := by
  rw [show 1 + b = b + 1 from by omega, List.drop_succ_cons]

theorem getD_drop (l : List Nat) (n d : Nat) :
    l.getD n d = (l.drop n).getD 0 d := by
  induction n generalizing l with
  | zero => simp
  | succ n ih =>
    cases l with
    | nil => simp
    | cons a t => rw [List.getD_cons_succ, List.drop_succ_cons, ih]

/-! ## Full decode of a wire record -/

theorem entryDecode_wire_string (tgt : Entry) (key val : List Nat) (s : Nat)
    (hk : key.length + 8 < 4294967296) (hv : val.length < 4294967296) :
    entryDecode tgt (le32 s ++ le32 key.length ++ key ++ [STRING_TYPE] ++ le32 val.length ++ val)
      = some ⟨key, tgt.valueType, val⟩ := by
  obtain ⟨tk, tty, tval⟩ := tgt
  set B := le32 s ++ le32 key.length ++ key ++ [STRING_TYPE] ++ le32 val.length ++ val with hB
  have hL : B.length = key.length + val.length + 13 := by
    rw [hB]
    simp only [List.length_append, le32_length, List.length_cons, List.length_nil]
    omega
  have h1 : readLE32 B 4 = key.length := by
    rw [hB]
    simp only [List.append_assoc]
    unfold readLE32
    rw [List.drop_left' (le32_length s)]
    exact peekLE32_le32_append _ _ (by omega)
  have h3 : (B.drop 8).take key.length = key := by
    rw [hB]
    simp only [List.append_assoc]
    rw [show (8 : Nat) = 4 + 4 from rfl, ← List.drop_drop,
      List.drop_left' (le32_length s), List.drop_left' (le32_length key.length)]
    exact List.take_left _ _
  have h4 : B.getD (key.length + 8) 0 = STRING_TYPE := by
    rw [hB]
    simp only [List.append_assoc]
    rw [getD_drop, show key.length + 8 = 4 + (4 + (key.length + 0)) from by omega,
      dropSeg32, dropSeg32, dropSegKey, List.drop_zero, List.singleton_append,
      List.getD_cons_zero]
  have h5 : readLE32 B (key.length + 1 + 8) = val.length := by
    rw [hB]
    simp only [List.append_assoc]
    unfold readLE32
    rw [show key.length + 1 + 8 = 4 + (4 + (key.length + (1 + 0))) from by omega,
      dropSeg32, dropSeg32, dropSegKey, List.singleton_append, dropSeg1, List.drop_zero]
    exact peekLE32_le32_append _ _ hv
  have h6 : (B.drop (key.length + 1 + 12)).take val.length = val := by
    rw [hB]
    simp only [List.append_assoc]
    rw [show key.length + 1 + 12 = 4 + (4 + (key.length + (1 + (4 + 0)))) from by omega,
      dropSeg32, dropSeg32, dropSegKey, List.singleton_append, dropSeg1, dropSeg32,
      List.drop_zero, List.take_length]
  dsimp only [entryDecode]
  rw [h1, Nat.mod_eq_of_lt hk, if_pos (by rw [hL]; omega),
    if_pos (⟨by omega, by rw [hL]; omega⟩ : 8 ≤ key.length + 8 ∧ key.length + 8 ≤ B.length)]
  rw [h3, h4, if_pos (by rw [hL]; omega),
    show List.lookup STRING_TYPE operators = some stringOperator from rfl]
  show stringOperatorDecode B ⟨key, tty, tval⟩ = some ⟨key, tty, val⟩
  dsimp only [stringOperatorDecode, TYPE_SIZE]
  rw [h5, if_pos (by rw [hL]; omega), if_pos (by rw [hL]; omega), h6]

theorem entryDecode_wire_int64 (tgt : Entry) (key : List Nat) (u : Nat) (tail : List Nat) (s : Nat)
    (hk : key.length + 8 < 4294967296) (hu : u < 18446744073709551616) :
    entryDecode tgt (le32 s ++ le32 key.length ++ key ++ [INT64_TYPE] ++ le64 u ++ tail)
      = some ⟨key, tgt.valueType, int64ToString (toInt64 u)⟩ := by
  obtain ⟨tk, tty, tval⟩ := tgt
  set B := le32 s ++ le32 key.length ++ key ++ [INT64_TYPE] ++ le64 u ++ tail with hB
  have hL : B.length = key.length + 17 + tail.length := by
    rw [hB]
    simp only [List.length_append, le32_length, le64_length, List.length_cons, List.length_nil]
    omega
  have h1 : readLE32 B 4 = key.length := by
    rw [hB]
    simp only [List.append_assoc]
    unfold readLE32
    rw [List.drop_left' (le32_length s)]
    exact peekLE32_le32_append _ _ (by omega)
  have h3 : (B.drop 8).take key.length = key := by
    rw [hB]
    simp only [List.append_assoc]
    rw [show (8 : Nat) = 4 + 4 from rfl, ← List.drop_drop,
      List.drop_left' (le32_length s), List.drop_left' (le32_length key.length)]
    exact List.take_left _ _
  have h4 : B.getD (key.length + 8) 0 = INT64_TYPE := by
    rw [hB]
    simp only [List.append_assoc]
    rw [getD_drop, show key.length + 8 = 4 + (4 + (key.length + 0)) from by omega,
      dropSeg32, dropSeg32, dropSegKey, List.drop_zero, List.singleton_append,
      List.getD_cons_zero]
  have h5 : readLE64 B (key.length + 1 + 8) = u := by
    rw [hB]
    simp only [List.append_assoc]
    unfold readLE64
    rw [show key.length + 1 + 8 = 4 + (4 + (key.length + (1 + 0))) from by omega,
      dropSeg32, dropSeg32, dropSegKey, List.singleton_append, dropSeg1, List.drop_zero]
    exact peekLE64_le64_append _ _ hu
  dsimp only [entryDecode]
  rw [h1, Nat.mod_eq_of_lt hk, if_pos (by rw [hL]; omega),
    if_pos (⟨by omega, by rw [hL]; omega⟩ : 8 ≤ key.length + 8 ∧ key.length + 8 ≤ B.length)]
  rw [h3, h4, if_pos (by rw [hL]; omega),
    show List.lookup INT64_TYPE operators = some int64Operator from rfl]
  show int64OperatorDecode B ⟨key, tty, tval⟩ = some ⟨key, tty, int64ToString (toInt64 u)⟩
  dsimp only [int64OperatorDecode, TYPE_SIZE]
  rw [h5, if_pos (by rw [hL]; omega)]

/-! ## Reader operations at a split position

Each lemma describes one `bufio` primitive on a reader whose already
consumed bytes are `X` and whose remaining bytes are `Y`. -/

theorem takeSeg32 (m : Nat) (t : List Nat) (b : Nat) :
    (le32 m ++ t).take (4 + b) = le32 m ++ t.take b := by
  have h := @List.take_append Nat (le32 m) t b
  rw [le32_length] at h
  exact h

theorem Reader.peek_split (X Y : List Nat) (n : Nat) (hn : n ≤ Y.length) :
    Reader.peek ⟨X ++ Y, X.length⟩ n = some (Y.take n) := by
  show (if X.length + n ≤ (X ++ Y).length
        then some (((X ++ Y).drop X.length).take n) else none) = some (Y.take n)
  rw [if_pos (by simp only [List.length_append]; omega), List.drop_left]

theorem Reader.discard_split (X Y : List Nat) (n : Nat) (hn : n ≤ Y.length) :
    Reader.discard ⟨X ++ Y, X.length⟩ n = some ⟨X ++ Y, X.length + n⟩ := by
  show (if X.length + n ≤ (X ++ Y).length
        then some ((⟨X ++ Y, X.length + n⟩ : Reader)) else none) = _
  rw [if_pos (by simp only [List.length_append]; omega)]

theorem Reader.readBytes_split (X Y : List Nat) (n : Nat) (hn : n ≤ Y.length) :
    Reader.readBytes ⟨X ++ Y, X.length⟩ n = .ok (Y.take n, ⟨X ++ Y, X.length + n⟩) := by
  unfold Reader.readBytes
  by_cases h0 : n = 0
  · subst h0
    rw [if_pos rfl]
    simp
  · rw [if_neg h0, if_neg (by simp only [List.length_append]; omega)]
    have hm : min n ((⟨X ++ Y, X.length⟩ : Reader).data.length
        - (⟨X ++ Y, X.length⟩ : Reader).pos) = n := by
      simp only [List.length_append]
      omega
    show Except.ok (((X ++ Y).drop X.length).take (min n ((X ++ Y).length - X.length)),
        (⟨X ++ Y, X.length + min n ((X ++ Y).length - X.length)⟩ : Reader)) = _
    rw [show min n ((X ++ Y).length - X.length) = n from by simp only [List.length_append]; omega,
      List.drop_left]

theorem takeSeg32_exact (m : Nat) (t : List Nat) : (le32 m ++ t).take 4 = le32 m := by
  have h := takeSeg32 m t 0
  rw [List.take_zero, List.append_nil] at h
  exact h

/-- One successful `readValue` over a STRING wire record consumes exactly
the record's bytes: with `A` already consumed and the record followed by
`B`, the cursor moves from `A.length` to `A.length` plus the record
length. -/
theorem readValue_string_step (A B : List Nat) (e : Entry)
    (hk : e.key.length < 4294967296) (hv : e.value.length < 4294967296) :
    readValue ⟨A ++ (stringOperatorEncode e ++ B), A.length⟩
      = .ok (⟨stringName, e.value⟩,
          ⟨A ++ (stringOperatorEncode e ++ B), A.length + (stringOperatorEncode e).length⟩) := by
  have hlenc : (stringOperatorEncode e).length = e.key.length + e.value.length + 13 :=
    stringOperatorEncode_length e
  have hp8 : Reader.peek ⟨A ++ (stringOperatorEncode e ++ B), A.length⟩ 8
      = some ((stringOperatorEncode e ++ B).take 8) :=
    Reader.peek_split _ _ 8 (by simp only [List.length_append, hlenc]; omega)
  have htake8 : (stringOperatorEncode e ++ B).take 8
      = le32 (e.key.length + 1 + e.value.length + 12) ++ le32 e.key.length := by
    rw [stringOperatorEncode_eq]
    simp only [List.append_assoc]
    rw [show (8 : Nat) = 4 + 4 from rfl, takeSeg32, takeSeg32_exact]
  have hks : peekLE32 ((le32 (e.key.length + 1 + e.value.length + 12)
      ++ le32 e.key.length).drop 4) = e.key.length := by
    rw [List.drop_left' (le32_length _)]
    exact peekLE32_le32 _ hk
  have hd1 : Reader.discard ⟨A ++ (stringOperatorEncode e ++ B), A.length⟩ (e.key.length + 8)
      = some ⟨A ++ (stringOperatorEncode e ++ B), A.length + (e.key.length + 8)⟩ :=
    Reader.discard_split _ _ _ (by simp only [List.length_append, hlenc]; omega)
  have hsplit1 : A ++ (stringOperatorEncode e ++ B)
      = (A ++ (le32 (e.key.length + 1 + e.value.length + 12) ++ (le32 e.key.length ++ e.key)))
        ++ ([STRING_TYPE] ++ (le32 e.value.length ++ (e.value ++ B))) := by
    rw [stringOperatorEncode_eq]
    simp [List.append_assoc]
  have hr1 : (⟨A ++ (stringOperatorEncode e ++ B), A.length + (e.key.length + 8)⟩ : Reader)
      = ⟨(A ++ (le32 (e.key.length + 1 + e.value.length + 12)
            ++ (le32 e.key.length ++ e.key)))
          ++ ([STRING_TYPE] ++ (le32 e.value.length ++ (e.value ++ B))),
         (A ++ (le32 (e.key.length + 1 + e.value.length + 12)
            ++ (le32 e.key.length ++ e.key))).length⟩ := by
    rw [hsplit1, show (A ++ (le32 (e.key.length + 1 + e.value.length + 12)
        ++ (le32 e.key.length ++ e.key))).length = A.length + (e.key.length + 8) from by
      simp only [List.length_append, le32_length]; omega]
  have hr2 : (⟨(A ++ (le32 (e.key.length + 1 + e.value.length + 12)
            ++ (le32 e.key.length ++ e.key)))
          ++ ([STRING_TYPE] ++ (le32 e.value.length ++ (e.value ++ B))),
        (A ++ (le32 (e.key.length + 1 + e.value.length + 12)
            ++ (le32 e.key.length ++ e.key))).length + 1⟩ : Reader)
      = ⟨((A ++ (le32 (e.key.length + 1 + e.value.length + 12)
            ++ (le32 e.key.length ++ e.key))) ++ [STRING_TYPE])
          ++ (le32 e.value.length ++ (e.value ++ B)),
         ((A ++ (le32 (e.key.length + 1 + e.value.length + 12)
            ++ (le32 e.key.length ++ e.key))) ++ [STRING_TYPE]).length⟩ := by
    rw [show ((A ++ (le32 (e.key.length + 1 + e.value.length + 12)
        ++ (le32 e.key.length ++ e.key))) ++ [STRING_TYPE]).length
        = (A ++ (le32 (e.key.length + 1 + e.value.length + 12)
          ++ (le32 e.key.length ++ e.key))).length + 1 from by
      simp only [List.length_append, List.length_cons, List.length_nil]]
    simp [List.append_assoc]
  have hr3 : (⟨((A ++ (le32 (e.key.length + 1 + e.value.length + 12)
            ++ (le32 e.key.length ++ e.key))) ++ [STRING_TYPE])
          ++ (le32 e.value.length ++ (e.value ++ B)),
        ((A ++ (le32 (e.key.length + 1 + e.value.length + 12)
            ++ (le32 e.key.length ++ e.key))) ++ [STRING_TYPE]).length + 4⟩ : Reader)
      = ⟨(((A ++ (le32 (e.key.length + 1 + e.value.length + 12)
            ++ (le32 e.key.length ++ e.key))) ++ [STRING_TYPE]) ++ le32 e.value.length)
          ++ (e.value ++ B),
         (((A ++ (le32 (e.key.length + 1 + e.value.length + 12)
            ++ (le32 e.key.length ++ e.key))) ++ [STRING_TYPE]) ++ le32 e.value.length).length⟩ := by
    rw [show ((((A ++ (le32 (e.key.length + 1 + e.value.length + 12)
        ++ (le32 e.key.length ++ e.key))) ++ [STRING_TYPE]) ++ le32 e.value.length)).length
        = ((A ++ (le32 (e.key.length + 1 + e.value.length + 12)
          ++ (le32 e.key.length ++ e.key))) ++ [STRING_TYPE]).length + 4 from by
      simp only [List.length_append, le32_length]]
    simp [List.append_assoc]
  have hrF : (⟨(((A ++ (le32 (e.key.length + 1 + e.value.length + 12)
            ++ (le32 e.key.length ++ e.key))) ++ [STRING_TYPE]) ++ le32 e.value.length)
          ++ (e.value ++ B),
        (((A ++ (le32 (e.key.length + 1 + e.value.length + 12)
            ++ (le32 e.key.length ++ e.key))) ++ [STRING_TYPE])
          ++ le32 e.value.length).length + e.value.length⟩ : Reader)
      = ⟨A ++ (stringOperatorEncode e ++ B), A.length + (stringOperatorEncode e).length⟩ := by
    rw [show (((A ++ (le32 (e.key.length + 1 + e.value.length + 12)
        ++ (le32 e.key.length ++ e.key))) ++ [STRING_TYPE])
          ++ le32 e.value.length).length + e.value.length
        = A.length + (stringOperatorEncode e).length from by
      rw [hlenc]
      simp only [List.length_append, le32_length, List.length_cons, List.length_nil]
      omega]
    rw [show (((A ++ (le32 (e.key.length + 1 + e.value.length + 12)
        ++ (le32 e.key.length ++ e.key))) ++ [STRING_TYPE]) ++ le32 e.value.length)
          ++ (e.value ++ B) = A ++ (stringOperatorEncode e ++ B) from by
      rw [stringOperatorEncode_eq]
      simp [List.append_assoc]]
  unfold readValue
  rw [hp8, htake8]
  dsimp only []
  rw [hks, hd1]
  dsimp only []
  rw [hr1, Reader.peek_split _ _ 1 (by
    simp only [List.length_append, List.length_cons, List.length_nil, le32_length]; omega)]
  rw [show ([STRING_TYPE] ++ (le32 e.value.length ++ (e.value ++ B))).take 1
      = [STRING_TYPE] from rfl]
  dsimp only []
  rw [Reader.discard_split _ _ 1 (by
    simp only [List.length_append, List.length_cons, List.length_nil, le32_length]; omega)]
  dsimp only []
  rw [show ([STRING_TYPE].getD 0 0) = STRING_TYPE from rfl,
    show List.lookup STRING_TYPE operators = some stringOperator from rfl]
  dsimp only []
  dsimp only [stringOperator]
  rw [hr2]
  unfold stringOperatorRead
  rw [Reader.peek_split _ _ 4 (by
    simp only [List.length_append, le32_length]; omega), takeSeg32_exact]
  dsimp only []
  rw [peekLE32_le32 _ hv]
  rw [Reader.discard_split _ _ 4 (by
    simp only [List.length_append, le32_length]; omega)]
  dsimp only []
  rw [hr3]
  rw [Reader.readBytes_split _ _ e.value.length (by
    simp only [List.length_append]; omega)]
  dsimp only []
  rw [List.take_left]
  rw [if_neg (by omega)]
  dsimp only []
  rw [hrF]
  rfl

/-- Cursor trajectory over a back-to-back stream of STRING records: after
`k` successful `readValue` calls the cursor sits exactly at the total length
of the first `k` records, i.e. at the first byte of the next record's
`totalSize` field. -/
theorem readN_stream_aux : ∀ (k : Nat) (es : List Entry),
    (∀ x ∈ es, x.key.length < 4294967296 ∧ x.value.length < 4294967296) →
    k ≤ es.length → ∀ (A rest : List Nat),
    readN k ⟨A ++ (recordStream es ++ rest), A.length⟩
      = .ok ⟨A ++ (recordStream es ++ rest),
             A.length + (recordStream (es.take k)).length⟩ := by
  intro k
  induction k with
  | zero =>
    intro es h hk A rest
    simp [readN, recordStream]
  | succ k ih =>
    intro es h hk A rest
    cases es with
    | nil => simp at hk
    | cons e es' =>
      have hdata : A ++ (recordStream (e :: es') ++ rest)
          = A ++ (stringOperatorEncode e ++ (recordStream es' ++ rest)) := by
        simp [recordStream, List.append_assoc]
      rw [hdata]
      have hstep := readValue_string_step A (recordStream es' ++ rest) e
        (h e (by simp)).1 (h e (by simp)).2
      show (match readValue ⟨A ++ (stringOperatorEncode e ++ (recordStream es' ++ rest)),
              A.length⟩ with
            | Except.error f => Except.error f
            | Except.ok (_, r1) => readN k r1) = _
      rw [hstep]
      dsimp only []
      rw [show (⟨A ++ (stringOperatorEncode e ++ (recordStream es' ++ rest)),
            A.length + (stringOperatorEncode e).length⟩ : Reader)
          = ⟨(A ++ stringOperatorEncode e) ++ (recordStream es' ++ rest),
             (A ++ stringOperatorEncode e).length⟩ from by
        rw [show (A ++ stringOperatorEncode e).length
            = A.length + (stringOperatorEncode e).length from by simp]
        simp [List.append_assoc]]
      rw [ih es' (fun x hx => h x (by simp [hx]))
        (by simp only [List.length_cons] at hk; omega) (A ++ stringOperatorEncode e) rest]
      rw [show (⟨(A ++ stringOperatorEncode e) ++ (recordStream es' ++ rest),
            (A ++ stringOperatorEncode e).length + (recordStream (es'.take k)).length⟩ : Reader)
          = ⟨A ++ (stringOperatorEncode e ++ (recordStream es' ++ rest)),
             A.length + (recordStream ((e :: es').take (k + 1))).length⟩ from by
        rw [show (e :: es').take (k + 1) = e :: es'.take k from List.take_succ_cons,
          show recordStream (e :: es'.take k)
            = stringOperatorEncode e ++ recordStream (es'.take k) from by
          simp [recordStream]]
        rw [show ((A ++ stringOperatorEncode e)).length + (recordStream (es'.take k)).length
            = A.length + (stringOperatorEncode e ++ recordStream (es'.take k)).length from by
          simp only [List.length_append]; omega]
        simp [List.append_assoc]]

/-! ## Bulk round trips -/

theorem roundTrip_string (e : Entry) (htag : e.valueType = STRING_TYPE)
    (hk : e.key.length + 8 < 4294967296) (hv : e.value.length < 4294967296) :
    roundTrip e = some ⟨e.key, STRING_TYPE, e.value⟩ := by
  unfold roundTrip entryEncode
  rw [htag, show List.lookup STRING_TYPE operators = some stringOperator from rfl]
  dsimp only [stringOperator]
  rw [Option.some_bind, stringOperatorEncode_eq,
    entryDecode_wire_string ⟨[], 0, []⟩ e.key e.value _ hk hv]
  rfl

theorem roundTrip_int64 (e : Entry) (v : Int) (htag : e.valueType = INT64_TYPE)
    (hk : e.key.length + 8 < 4294967296) (hval : e.value = int64ToString v)
    (h1 : -9223372036854775808 ≤ v) (h2 : v ≤ 9223372036854775807) :
    roundTrip e = some ⟨e.key, STRING_TYPE, e.value⟩ := by
  have hparse : parseIntGo e.value = some v := by
    rw [hval]
    exact parseIntGo_int64ToString v h1 h2
  unfold roundTrip entryEncode
  rw [htag, show List.lookup INT64_TYPE operators = some int64Operator from rfl]
  dsimp only [int64Operator]
  rw [int64OperatorEncode_eq e v hparse, Option.some_bind,
    entryDecode_wire_int64 ⟨[], 0, []⟩ e.key (toUInt64 v) [0, 0, 0, 0] _ hk (toUInt64_lt v),
    toInt64_toUInt64 v h1 h2, ← hval]
  rfl

/-! ## Registry dispatch facts -/

theorem lookup_operators_none (t : Nat) (h0 : t ≠ STRING_TYPE) (h1 : t ≠ INT64_TYPE) :
    List.lookup t operators = none := by
  have hb0 : (t == STRING_TYPE) = false := beq_eq_false_iff_ne.mpr h0
  have hb1 : (t == INT64_TYPE) = false := beq_eq_false_iff_ne.mpr h1
  simp [operators, List.lookup, hb0, hb1]

theorem lookup_operators_cases (t : Nat) (op : TypeOperator)
    (h : List.lookup t operators = some op) :
    op = stringOperator ∨ op = int64Operator := by
  by_cases h0 : t = STRING_TYPE
  · subst h0
    rw [show List.lookup STRING_TYPE operators = some stringOperator from rfl] at h
    exact Or.inl (Option.some.inj h).symm
  · by_cases h1 : t = INT64_TYPE
    · subst h1
      rw [show List.lookup INT64_TYPE operators = some int64Operator from rfl] at h
      exact Or.inr (Option.some.inj h).symm
    · rw [lookup_operators_none t h0 h1] at h
      exact Option.noConfusion h

/-! ## The claims -/

/-- C1, counterexample: the record `{key: "k", INT64, value: "07"}` has a
value text that `strconv.ParseInt` accepts (so it is valid for INT64), yet
decoding its encoding yields the value text `"7"`, not `"07"`: the
round-trip does not return an identical textual value for every valid
value text. -/
theorem C1_counterexample :
    parseIntGo [48, 55] = some 7
    ∧ Option.map Entry.value (roundTrip ⟨[107], INT64_TYPE, [48, 55]⟩) = some [55]
    ∧ ([55] : List Nat) ≠ [48, 55] := by
  refine ⟨by decide, ?_, by decide⟩
  rfl

/-- C1 (amended): for every Record whose key is at most `2^32 - 9` bytes
(so that the key fits the 4-byte length field and the uint32 index
`kl + 8` in `Entry.Decode` does not wrap) and whose value is either a
STRING value fitting its 4-byte length field, or, for INT64, the canonical
decimal text of an integer in the signed 64-bit range, decoding the
encoding yields a Record with identical key and identical textual
value. -/
theorem C1_roundtrip_amended (e : Entry)
    (hk : e.key.length + 8 < 4294967296)
    (h : (e.valueType = STRING_TYPE ∧ e.value.length < 4294967296)
       ∨ (e.valueType = INT64_TYPE ∧ ∃ v : Int, -9223372036854775808 ≤ v
            ∧ v ≤ 9223372036854775807 ∧ e.value = int64ToString v)) :
    Option.map Entry.key (roundTrip e) = some e.key
    ∧ Option.map Entry.value (roundTrip e) = some e.value := by
  rcases h with ⟨htag, hv⟩ | ⟨htag, v, h1, h2, hval⟩
  · rw [roundTrip_string e htag hk hv]
    exact ⟨rfl, rfl⟩
  · rw [roundTrip_int64 e v htag hk hval h1 h2]
    exact ⟨rfl, rfl⟩

/-- C1, witness: the amended round trip evaluated at
`{key: "k", INT64, value: "42"}`. -/
theorem C1_roundtrip_amended_witness :
    (([107] : List Nat).length + 8 < 4294967296
      ∧ ((⟨[107], INT64_TYPE, [52, 50]⟩ : Entry).valueType = INT64_TYPE
          ∧ ∃ v : Int, -9223372036854775808 ≤ v ∧ v ≤ 9223372036854775807
              ∧ (⟨[107], INT64_TYPE, [52, 50]⟩ : Entry).value = int64ToString v))
    ∧ Option.map Entry.key (roundTrip ⟨[107], INT64_TYPE, [52, 50]⟩) = some [107]
    ∧ Option.map Entry.value (roundTrip ⟨[107], INT64_TYPE, [52, 50]⟩) = some [52, 50] :=
  ⟨⟨by decide, rfl, 42, by decide, by decide, by decide⟩,
   C1_roundtrip_amended ⟨[107], INT64_TYPE, [52, 50]⟩ (by decide)
     (Or.inr ⟨rfl, 42, by decide, by decide, by decide⟩)⟩

/-- C2: on the record `{key: "k", INT64, value: "abc"}` — whose value text
is not a valid signed 64-bit decimal — `Entry.Encode` reaches the
`panic(err)` call in `int64Operator.Encode` (the `none` of the embedding):
the code raises a process-terminating runtime fault, it has no
`EncodingError` result to return (its signature declares no error at all),
contrary to the claim. -/
theorem C2_encode_invalid_int64_fault :
    entryEncode ⟨[107], INT64_TYPE, [97, 98, 99]⟩ = none := rfl

/-- C3: on a well-formed buffer whose type tag byte (offset `8 + keyLength`)
is 2 — a tag with no registered operator — `Entry.Decode` dispatches through
the nil interface returned by the `operators` map and faults (the `none` of
the embedding): no `DecodingError` value is produced or even producible,
since `Entry.Decode` declares no error result. -/
theorem C3_decode_unknown_tag_fault :
    entryDecode ⟨[], STRING_TYPE, []⟩ [14, 0, 0, 0, 1, 0, 0, 0, 107, 2, 0, 0, 0, 0]
      = none := rfl

/-- C4: truncation behaviour of `Entry.Decode`.  First conjunct: the STRING
record for `{key: "k", value: "v"}` (declared totalSize 15) truncated to 14
bytes makes the value copy index past the buffer end — a runtime fault
(`none`), not a recoverable error.  Second conjunct: the INT64 record for
`{key: "ctr", value: "42"}` (declared totalSize 24) truncated to 20 bytes
decodes silently and successfully, because only the trailing reserved bytes
are missing — no error is reported either. -/
theorem C4_decode_truncated_fault :
    entryDecode ⟨[], STRING_TYPE, []⟩ [15, 0, 0, 0, 1, 0, 0, 0, 107, 0, 1, 0, 0, 0] = none
    ∧ entryDecode ⟨[], STRING_TYPE, []⟩
        [24, 0, 0, 0, 3, 0, 0, 0, 99, 116, 114, 1, 42, 0, 0, 0, 0, 0, 0, 0]
      = some ⟨[99, 116, 114], STRING_TYPE, [52, 50]⟩ :=
  ⟨rfl, rfl⟩

/-- C5: on a reader holding exactly the eight little-endian bytes of the
value 42, `int64Operator.Read` returns the correct decimal text `"42"`, but
the returned reader still has cursor position 0: the code only `Peek`s and
never advances the cursor by 8 as the claim requires. -/
theorem C5_int64_read_cursor_stuck :
    int64OperatorRead ⟨[42, 0, 0, 0, 0, 0, 0, 0], 0⟩
      = .ok ([52, 50], ⟨[42, 0, 0, 0, 0, 0, 0, 0], 0⟩) := rfl

/-- C6: streaming alignment over concatenated STRING records: for every
list of records (keys and values fitting their 4-byte length fields), every
trailing continuation of the stream, and every count `k` of records, `k`
successive `readValue` calls starting at position 0 all succeed and leave
the cursor exactly at the total byte length of the first `k` encoded
records — the first byte of the next record's `totalSize` field. -/
theorem C6_stream_alignment (es : List Entry) (rest : List Nat) (k : Nat)
    (h : ∀ x ∈ es, x.key.length < 4294967296 ∧ x.value.length < 4294967296)
    (hk : k ≤ es.length) :
    readN k ⟨recordStream es ++ rest, 0⟩
      = .ok ⟨recordStream es ++ rest, (recordStream (es.take k)).length⟩ := by
  have h0 := readN_stream_aux k es h hk [] rest
  simpa using h0

/-- C6, witness: two concatenated STRING records, both calls succeed and
the cursor lands on the byte boundary after both records. -/
theorem C6_stream_alignment_witness :
    readN 2 ⟨recordStream [⟨[107], STRING_TYPE, [118, 119]⟩, ⟨[], STRING_TYPE, [122]⟩], 0⟩
      = .ok ⟨recordStream [⟨[107], STRING_TYPE, [118, 119]⟩, ⟨[], STRING_TYPE, [122]⟩],
             (recordStream ([⟨[107], STRING_TYPE, [118, 119]⟩,
                 ⟨[], STRING_TYPE, [122]⟩].take 2)).length⟩ :=
  C6_stream_alignment [⟨[107], STRING_TYPE, [118, 119]⟩, ⟨[], STRING_TYPE, [122]⟩] [] 2
    (by decide) (by decide)

/-- C7: whenever `Entry.Encode` returns a buffer (and the generic size fits
the 4-byte field), the buffer's length is `keyLength + 1 + V + 12` with `V`
the value payload size (value byte length for STRING, 8 for INT64), its
first four bytes are that same length little-endian, and for INT64 records
its last four bytes are reserved but unwritten, i.e. zero. -/
theorem C7_encode_size (e : Entry) (buf : List Nat)
    (henc : entryEncode e = some buf)
    (hsz : e.key.length + (if e.valueType = INT64_TYPE then 8 else e.value.length) + 13
        < 4294967296) :
    buf.length
      = e.key.length + 1 + (if e.valueType = INT64_TYPE then 8 else e.value.length) + 12
    ∧ buf.take 4 = le32 buf.length
    ∧ (e.valueType = INT64_TYPE → buf.drop (buf.length - 4) = [0, 0, 0, 0]) := by
  unfold entryEncode at henc
  by_cases h0 : e.valueType = STRING_TYPE
  · rw [h0, show List.lookup STRING_TYPE operators = some stringOperator from rfl] at henc
    dsimp only [stringOperator] at henc
    have hbuf := (Option.some.inj henc).symm
    subst hbuf
    have hne : ¬ e.valueType = INT64_TYPE := by rw [h0]; decide
    rw [if_neg hne] at hsz ⊢
    refine ⟨by rw [stringOperatorEncode_length]; omega, ?_, fun htag => absurd htag hne⟩
    rw [stringOperatorEncode_length]
    rw [show stringOperatorEncode e
        = le32 (e.key.length + 1 + e.value.length + 12) ++ (le32 e.key.length ++ (e.key
          ++ ([STRING_TYPE] ++ (le32 e.value.length ++ e.value)))) from by
      rw [stringOperatorEncode_eq]; simp [List.append_assoc]]
    rw [takeSeg32_exact]
    rw [show e.key.length + e.value.length + 13 = e.key.length + 1 + e.value.length + 12 from by
      omega]
  · by_cases h1 : e.valueType = INT64_TYPE
    · rw [h1, show List.lookup INT64_TYPE operators = some int64Operator from rfl] at henc
      dsimp only [int64Operator] at henc
      have hp : ∃ i, parseIntGo e.value = some i := by
        dsimp only [int64OperatorEncode] at henc
        cases hpi : parseIntGo e.value with
        | none => rw [hpi] at henc; exact Option.noConfusion henc
        | some i => exact ⟨i, rfl⟩
      obtain ⟨i, hpi⟩ := hp
      rw [int64OperatorEncode_eq e i hpi] at henc
      have hbuf := (Option.some.inj henc).symm
      subst hbuf
      rw [if_pos h1] at hsz ⊢
      have hlenB : (le32 (e.key.length + 1 + 8 + 12) ++ le32 e.key.length ++ e.key
          ++ [INT64_TYPE] ++ le64 (toUInt64 i) ++ [0, 0, 0, 0]).length
          = e.key.length + 1 + 8 + 12 := by
        simp only [List.length_append, le32_length, le64_length, List.length_cons,
          List.length_nil]
        omega
      refine ⟨hlenB, ?_, fun _ => ?_⟩
      · rw [hlenB]
        rw [show le32 (e.key.length + 1 + 8 + 12) ++ le32 e.key.length ++ e.key
            ++ [INT64_TYPE] ++ le64 (toUInt64 i) ++ [0, 0, 0, 0]
            = le32 (e.key.length + 1 + 8 + 12) ++ (le32 e.key.length ++ (e.key
              ++ ([INT64_TYPE] ++ (le64 (toUInt64 i) ++ [0, 0, 0, 0])))) from by
          simp [List.append_assoc]]
        rw [takeSeg32_exact]
      · rw [hlenB]
        have hfront : (le32 (e.key.length + 1 + 8 + 12) ++ le32 e.key.length ++ e.key
            ++ [INT64_TYPE] ++ le64 (toUInt64 i)).length
            = e.key.length + 1 + 8 + 12 - 4 := by
          simp only [List.length_append, le32_length, le64_length, List.length_cons,
            List.length_nil]
          omega
        exact List.drop_left' hfront
    · rw [lookup_operators_none e.valueType h0 h1] at henc
      exact Option.noConfusion henc

/-- C7, witness: the encode of `{key: "ctr", INT64, value: "42"}` — a
24-byte buffer, its first four bytes `[24, 0, 0, 0]`, its last four bytes
zero. -/
theorem C7_encode_size_witness :
    (entryEncode ⟨[99, 116, 114], INT64_TYPE, [52, 50]⟩
        = some [24, 0, 0, 0, 3, 0, 0, 0, 99, 116, 114, 1,
                42, 0, 0, 0, 0, 0, 0, 0, 0, 0, 0, 0]
      ∧ ([99, 116, 114] : List Nat).length
          + (if (⟨[99, 116, 114], INT64_TYPE, [52, 50]⟩ : Entry).valueType = INT64_TYPE
             then 8 else ([52, 50] : List Nat).length) + 13 < 4294967296)
    ∧ ([24, 0, 0, 0, 3, 0, 0, 0, 99, 116, 114, 1,
        42, 0, 0, 0, 0, 0, 0, 0, 0, 0, 0, 0] : List Nat).length
      = ([99, 116, 114] : List Nat).length + 1
        + (if (⟨[99, 116, 114], INT64_TYPE, [52, 50]⟩ : Entry).valueType = INT64_TYPE
           then 8 else ([52, 50] : List Nat).length) + 12
    ∧ ([24, 0, 0, 0, 3, 0, 0, 0, 99, 116, 114, 1,
        42, 0, 0, 0, 0, 0, 0, 0, 0, 0, 0, 0] : List Nat).take 4
      = le32 ([24, 0, 0, 0, 3, 0, 0, 0, 99, 116, 114, 1,
               42, 0, 0, 0, 0, 0, 0, 0, 0, 0, 0, 0] : List Nat).length
    ∧ ((⟨[99, 116, 114], INT64_TYPE, [52, 50]⟩ : Entry).valueType = INT64_TYPE →
        ([24, 0, 0, 0, 3, 0, 0, 0, 99, 116, 114, 1,
          42, 0, 0, 0, 0, 0, 0, 0, 0, 0, 0, 0] : List Nat).drop
          (([24, 0, 0, 0, 3, 0, 0, 0, 99, 116, 114, 1,
             42, 0, 0, 0, 0, 0, 0, 0, 0, 0, 0, 0] : List Nat).length - 4)
        = [0, 0, 0, 0]) :=
  ⟨⟨rfl, by decide⟩,
   C7_encode_size ⟨[99, 116, 114], INT64_TYPE, [52, 50]⟩ _ rfl (by decide)⟩

/-- C8: for every INT64 Record whose key is at most `2^32 - 9` bytes (the
4-byte length field, and no wrap of the uint32 index `kl + 8` in
`Entry.Decode`) and whose textual value is the decimal representation of an
integer `v` in the signed 64-bit range, parsing the textual value of the
decoded re-encoding yields exactly `v`: the two's-complement little-endian
8-byte encoding is lossless over the full range. -/
theorem C8_numeric_fidelity (e : Entry) (v : Int)
    (htag : e.valueType = INT64_TYPE) (hk : e.key.length + 8 < 4294967296)
    (hval : e.value = int64ToString v)
    (h1 : -9223372036854775808 ≤ v) (h2 : v ≤ 9223372036854775807) :
    (roundTrip e).bind (fun r => parseIntGo r.value) = some v := by
  rw [roundTrip_int64 e v htag hk hval h1 h2, Option.some_bind]
  dsimp only
  rw [hval]
  exact parseIntGo_int64ToString v h1 h2

/-- C8, witness: the minimum signed 64-bit integer survives the byte-level
round trip. -/
theorem C8_numeric_fidelity_witness :
    (roundTrip ⟨[107], INT64_TYPE, int64ToString (-9223372036854775808)⟩).bind
        (fun r => parseIntGo r.value)
      = some (-9223372036854775808) :=
  C8_numeric_fidelity ⟨[107], INT64_TYPE, int64ToString (-9223372036854775808)⟩
    (-9223372036854775808) rfl (by decide) rfl (by decide) (by decide)

/-- C9: `ToByte` returns the registered tags for the names `"string"` and
`"int64"` and the zero sentinel, with no error, for every other name;
`ToType` returns the registered names for tags 0 and 1 and the empty string
for every other tag. -/
theorem C9_registry_lookup (s : List Nat) (b : Nat)
    (hs1 : s ≠ stringName) (hs2 : s ≠ int64Name)
    (hb1 : b ≠ STRING_TYPE) (hb2 : b ≠ INT64_TYPE) :
    ToByte stringName = STRING_TYPE ∧ ToByte int64Name = INT64_TYPE ∧ ToByte s = 0
    ∧ ToType STRING_TYPE = stringName ∧ ToType INT64_TYPE = int64Name ∧ ToType b = [] := by
  refine ⟨rfl, rfl, ?_, rfl, rfl, ?_⟩
  · have hb0 : (s == stringName) = false := beq_eq_false_iff_ne.mpr hs1
    have hbI : (s == int64Name) = false := beq_eq_false_iff_ne.mpr hs2
    simp [ToByte, typeToByte, List.lookup, hb0, hbI]
  · have hb0 : (STRING_TYPE == b) = false := beq_eq_false_iff_ne.mpr (Ne.symm hb1)
    have hbI : (INT64_TYPE == b) = false := beq_eq_false_iff_ne.mpr (Ne.symm hb2)
    simp [ToType, typeToByte, List.find?, hb0, hbI]

/-- C9, witness: the registry lookups evaluated at the unknown name `"b"`
and the unknown tag 7. -/
theorem C9_registry_lookup_witness :
    (([98] : List Nat) ≠ stringName ∧ ([98] : List Nat) ≠ int64Name
      ∧ (7 : Nat) ≠ STRING_TYPE ∧ (7 : Nat) ≠ INT64_TYPE)
    ∧ ToByte stringName = STRING_TYPE ∧ ToByte int64Name = INT64_TYPE ∧ ToByte [98] = 0
    ∧ ToType STRING_TYPE = stringName ∧ ToType INT64_TYPE = int64Name ∧ ToType 7 = [] :=
  ⟨⟨by decide, by decide, by decide, by decide⟩,
   C9_registry_lookup [98] 7 (by decide) (by decide) (by decide) (by decide)⟩

/-- C10: `Entry.Decode` never writes the `valueType` field of the target
entry: whenever it succeeds, the resulting entry's `valueType` equals the
target's original `valueType`, whatever tag the buffer carried. -/
theorem C10_decode_preserves_valueType (e : Entry) (input : List Nat) (e' : Entry)
    (h : entryDecode e input = some e') :
    e'.valueType = e.valueType := by
  dsimp only [entryDecode] at h
  split at h
  · split at h
    · split at h
      · split at h
        · rename_i op heq
          rcases lookup_operators_cases _ op heq with rfl | rfl
          · dsimp only [stringOperator, stringOperatorDecode] at h
            split at h
            · split at h
              · have h2 := Option.some.inj h
                rw [← h2]
              · exact Option.noConfusion h
            · exact Option.noConfusion h
          · dsimp only [int64Operator, int64OperatorDecode] at h
            split at h
            · have h2 := Option.some.inj h
              rw [← h2]
            · exact Option.noConfusion h
        · exact Option.noConfusion h
      · exact Option.noConfusion h
    · exact Option.noConfusion h
  · exact Option.noConfusion h

/-- C10, witness: a buffer carrying the INT64 tag decoded into a fresh
entry whose `valueType` is 0 still carries `valueType` 0 afterwards. -/
theorem C10_decode_preserves_valueType_witness :
    entryDecode ⟨[], STRING_TYPE, []⟩
        [24, 0, 0, 0, 3, 0, 0, 0, 99, 116, 114, 1, 42, 0, 0, 0, 0, 0, 0, 0, 0, 0, 0, 0]
      = some ⟨[99, 116, 114], STRING_TYPE, [52, 50]⟩
    ∧ (⟨[99, 116, 114], STRING_TYPE, [52, 50]⟩ : Entry).valueType
      = (⟨[], STRING_TYPE, []⟩ : Entry).valueType :=
  ⟨rfl,
   C10_decode_preserves_valueType ⟨[], STRING_TYPE, []⟩
     [24, 0, 0, 0, 3, 0, 0, 0, 99, 116, 114, 1, 42, 0, 0, 0, 0, 0, 0, 0, 0, 0, 0, 0]
     ⟨[99, 116, 114], STRING_TYPE, [52, 50]⟩ rfl⟩

end Datastore
